import Mathlib

/-!
Verification development for the stock dashboard in `src/app.py`.

The application is a thin pipeline: a cached data loader (`download_data`),
an indicator renderer (`tech_indicators`), a recent-data table, and a
prediction renderer (`predict` / `train_and_predict`).  Prices are embedded
as rationals (the loaded series carries no NaN; pandas NaN cells that the
code *creates* — shifted targets, indicator warm-up rows — are embedded as
`Option ℚ` with `none` for NaN).  The square root used by the external
numeric libraries (`StandardScaler`'s scale, rolling standard deviation)
is kept as an abstract parameter `sq : ℚ → ℚ`, since every property proved
here is independent of its values.  The regression estimators and
`train_test_split` are external collaborators and are likewise passed as
function parameters; the unseeded estimators additionally receive an
explicit `rng : ℕ` modelling the ambient global random state they consume
(the code fixes a seed only for the split, `random_state=42`).
-/

namespace StockApp

/-- Population mean of a list of rationals (`numpy` mean; `StandardScaler`
uses the population statistics, ddof = 0). -/
def popMean (xs : List ℚ) : ℚ := xs.sum / xs.length

/-- Population variance (ddof = 0), as used by `StandardScaler` and by the
`ta` library's rolling std (`ddof=0`). -/
def popVar (xs : List ℚ) : ℚ :=
  ((xs.map (fun x => (x - popMean xs) ^ 2)).sum) / xs.length

/-! ### Prediction pipeline (`train_and_predict`, src/app.py lines 123-150) -/

/-- pandas `Series.shift(-H)` applied to the Close column
(`df['Target'] = df['Close'].shift(-days)`, line 126): every value moves up
by `H` positions and the final `H` slots become NaN (`none`). -/
def shiftNeg (closes : List ℚ) (H : ℕ) : List (Option ℚ) :=
  (closes.drop H).map some ++ List.replicate (min H closes.length) none

/-- The two-column frame `df[['Close', 'Target']]` built at lines 125-126:
row `i` is `(Close i, Target i)`. -/
def predRows (closes : List ℚ) (H : ℕ) : List (ℚ × Option ℚ) :=
  closes.zip (shiftNeg closes H)

/-- `df.dropna()` on the two-column frame: keep exactly the rows whose
target is defined (the Close column of the loaded series carries no NaN). -/
def dropna (rows : List (ℚ × Option ℚ)) : List (ℚ × ℚ) :=
  rows.filterMap (fun r => r.2.map (fun y => (r.1, y)))

/-- The fit-eligible rows: `df.dropna()` (lines 132-133). -/
def eligible (closes : List ℚ) (H : ℕ) : List (ℚ × ℚ) :=
  dropna (predRows closes H)

/-- The guard `df['Target'].isnull().all()` (line 128). -/
def allTargetsNull (closes : List ℚ) (H : ℕ) : Bool :=
  (shiftNeg closes H).all Option.isNone

/-- Mean the `StandardScaler` is fitted with: the Close values of the
fit-eligible rows (`X = df.dropna().drop(columns=['Target']).values`,
`scaler.fit_transform(X)`, lines 132-136). -/
def scalerMean (closes : List ℚ) (H : ℕ) : ℚ :=
  popMean ((eligible closes H).map Prod.fst)

/-- Variance the `StandardScaler` is fitted with (same rows as the mean). -/
def scalerVar (closes : List ℚ) (H : ℕ) : ℚ :=
  popVar ((eligible closes H).map Prod.fst)

/-- `StandardScaler.transform` of one Close value: subtract the fitted mean
and divide by the fitted scale (the library takes the square root of the
variance; `sq` is that abstract square root). -/
def stdFeature (sq : ℚ → ℚ) (closes : List ℚ) (H : ℕ) (x : ℚ) : ℚ :=
  (x - scalerMean closes H) / sq (scalerVar closes H)

/-- The standardized eligible rows `(scaled Close, Target)` that are passed
to `train_test_split` (line 138). -/
def stdRows (sq : ℚ → ℚ) (closes : List ℚ) (H : ℕ) : List (ℚ × ℚ) :=
  (eligible closes H).map (fun r => (stdFeature sq closes H r.1, r.2))

/-- `mean_absolute_error(y_test, preds)` (line 145). -/
def maeScore (yTrue yPred : List ℚ) : ℚ :=
  ((yTrue.zip yPred).map (fun p => |p.1 - p.2|)).sum / yTrue.length

/-- `r2_score(y_test, preds)` (line 144): one minus residual sum of squares
over total sum of squares. -/
def r2Score (yTrue yPred : List ℚ) : ℚ :=
  1 - ((yTrue.zip yPred).map (fun p => (p.1 - p.2) ^ 2)).sum /
      ((yTrue.map (fun y => (y - popMean yTrue) ^ 2)).sum)

/-- `df[['Close']].values[-days:]` (line 148): the last `H` raw Close
values.  For `H ≥ 1` the Python slice `[-H:]` is exactly
`drop (length - H)` (taking the whole list when `H ≥ length`). -/
def lastClose (closes : List ℚ) (H : ℕ) : List ℚ :=
  closes.drop (closes.length - H)

/-- Observable output of one `train_and_predict` run: the train/test split,
the two reported metrics, and the forecast table (day offset, price). -/
structure RunResult where
  train : List (ℚ × ℚ)
  test : List (ℚ × ℚ)
  r2 : ℚ
  mae : ℚ
  forecast : List (ℕ × ℚ)
deriving DecidableEq

/-- `train_and_predict(model, df, days)` (lines 123-150).
`splitFn` is `train_test_split(·, test_size=0.2, random_state=42)` — a pure
function of its input since the seed is fixed.  `fit rng data` is the
chosen estimator fitted on `data`; `rng` is the ambient global random
state the unseeded ensemble constructors (lines 116-118) draw from — a
deterministic estimator simply ignores it.  Returns `none` when the
`isnull().all()` guard reports insufficient data (line 128), in which case
nothing downstream (scaler, split, fit) runs. -/
def trainAndPredict (splitFn : List (ℚ × ℚ) → List (ℚ × ℚ) × List (ℚ × ℚ))
    (sq : ℚ → ℚ) (fit : ℕ → List (ℚ × ℚ) → ℚ → ℚ) (rng : ℕ)
    (closes : List ℚ) (H : ℕ) : Option RunResult :=
  if allTargetsNull closes H then none
  else
    let tt := splitFn (stdRows sq closes H)
    let model := fit rng tt.1
    let preds := tt.2.map (fun p => model p.1)
    let yTest := tt.2.map Prod.snd
    some { train := tt.1, test := tt.2
           r2 := r2Score yTest preds, mae := maeScore yTest preds
           forecast := ((List.range H).map (· + 1)).zip
             ((lastClose closes H).map (fun x => model (stdFeature sq closes H x))) }

/-! ### Structural lemmas about the eligible rows -/

theorem length_shiftNeg (closes : List ℚ) (H : ℕ) :
    (shiftNeg closes H).length = closes.length := by
  simp [shiftNeg]
  omega

theorem dropna_zip_some (xs ys : List ℚ) :
    dropna (xs.zip (ys.map some)) = xs.zip ys := by
  induction xs generalizing ys with
  | nil => simp [dropna]
  | cons x xs ih =>
    cases ys with
    | nil => simp [dropna]
    | cons y ys =>
      simp only [List.map_cons, List.zip_cons_cons, dropna, List.filterMap_cons]
      simpa [dropna] using ih ys

theorem dropna_zip_none (xs : List ℚ) (k : ℕ) :
    dropna (xs.zip (List.replicate k none)) = [] := by
  induction xs generalizing k with
  | nil => simp [dropna]
  | cons x xs ih =>
    cases k with
    | zero => simp [dropna]
    | succ k =>
      simp only [List.replicate_succ, List.zip_cons_cons, dropna, List.filterMap_cons]
      simpa [dropna] using ih k

/-- The fit-eligible rows are exactly the first `N − H` Close values zipped
with the Close values `H` places later. -/
theorem eligible_eq (closes : List ℚ) (H : ℕ) :
    eligible closes H =
      (closes.take (closes.length - H)).zip (closes.drop H) := by
  have hlen : (closes.take (closes.length - H)).length
      = ((closes.drop H).map some).length := by
    simp
  calc eligible closes H
      = dropna ((closes.take (closes.length - H)
            ++ closes.drop (closes.length - H)).zip
          ((closes.drop H).map some
            ++ List.replicate (min H closes.length) none)) := by
        rw [List.take_append_drop]
        rfl
    _ = dropna ((closes.take (closes.length - H)).zip ((closes.drop H).map some))
        ++ dropna ((closes.drop (closes.length - H)).zip
            (List.replicate (min H closes.length) none)) := by
        rw [List.zip_append hlen]
        simp only [dropna, List.filterMap_append]
    _ = (closes.take (closes.length - H)).zip (closes.drop H) := by
        rw [dropna_zip_some, dropna_zip_none, List.append_nil]

theorem length_eligible (closes : List ℚ) (H : ℕ) :
    (eligible closes H).length = closes.length - H := by
  rw [eligible_eq]
  simp

theorem map_fst_eligible (closes : List ℚ) (H : ℕ) :
    (eligible closes H).map Prod.fst = closes.take (closes.length - H) := by
  rw [eligible_eq]
  apply List.map_fst_zip
  simp

theorem allTargetsNull_iff (closes : List ℚ) (H : ℕ) :
    allTargetsNull closes H = true ↔ closes.length ≤ H := by
  simp only [allTargetsNull, shiftNeg, List.all_append, Bool.and_eq_true,
    List.all_eq_true]
  constructor
  · intro h
    by_contra hlt
    push_neg at hlt
    have hne : closes.drop H ≠ [] := by
      intro hnil
      have := congrArg List.length hnil
      simp at this
      omega
    obtain ⟨a, ha⟩ := List.exists_mem_of_ne_nil _ hne
    have := h.1 (some a) (List.mem_map_of_mem some ha)
    simp at this
  · intro h
    constructor
    · intro a ha
      have : closes.drop H = [] := by
        apply List.eq_nil_of_length_eq_zero
        simp
        omega
      rw [this] at ha
      simp at ha
    · intro a ha
      have := List.eq_of_mem_replicate ha
      simp [this]

/-! ### Concrete collaborators used by witnesses and counterexamples -/

/-- A degenerate but type-correct stand-in for `train_test_split`: train and
test are both the full eligible set.  Used only to instantiate theorems at
concrete inputs. -/
def dupSplit : List (ℚ × ℚ) → List (ℚ × ℚ) × List (ℚ × ℚ) :=
  fun l => (l, l)

/-- A deterministic estimator (ignores the ambient random state; its
prediction is the identity on the scaled feature). -/
def idFit : ℕ → List (ℚ × ℚ) → ℚ → ℚ := fun _ _ x => x

/-- A stochastic estimator in the style of the unseeded ensembles: its
fitted predictor depends on the ambient random state it consumed. -/
def seedFit : ℕ → List (ℚ × ℚ) → ℚ → ℚ := fun rng _ _ => (rng : ℚ)

/-! ### C1: fit-eligible row count and the InsufficientData guard -/

/-- C1: for a series of length `N` and horizon `H` in `[1, 30]`, the number
of fit-eligible rows (rows kept after shifting Close by `H` and dropping
undefined targets) is `max 0 (N − H)`; the run reports InsufficientData
(returns `none`) exactly when that count is zero, i.e. `N ≤ H`, and in that
case no model fit is attempted (the outcome does not depend on the
estimator or on the ambient random state). -/
theorem claim1_eligible_count_and_guard
    (splitFn : List (ℚ × ℚ) → List (ℚ × ℚ) × List (ℚ × ℚ))
    (sq : ℚ → ℚ) (fit : ℕ → List (ℚ × ℚ) → ℚ → ℚ) (rng : ℕ)
    (closes : List ℚ) (H : ℕ) (_h1 : 1 ≤ H) (_h2 : H ≤ 30) :
    ((eligible closes H).length : ℤ) = max 0 ((closes.length : ℤ) - H) ∧
    (trainAndPredict splitFn sq fit rng closes H = none ↔ closes.length ≤ H) ∧
    (closes.length ≤ H → ∀ fit' rng',
      trainAndPredict splitFn sq fit rng closes H =
      trainAndPredict splitFn sq fit' rng' closes H) := by
  refine ⟨?_, ?_, ?_⟩
  · rw [length_eligible]
    omega
  · constructor
    · intro h
      simp only [trainAndPredict] at h
      split at h
      · next hg => exact (allTargetsNull_iff closes H).mp hg
      · simp at h
    · intro h
      simp [trainAndPredict, (allTargetsNull_iff closes H).mpr h]
  · intro h fit' rng'
    simp [trainAndPredict, (allTargetsNull_iff closes H).mpr h]

theorem claim1_witness :
    ((eligible [1, 2, 3, 4, 5] 2).length : ℤ)
      = max 0 ((([1, 2, 3, 4, 5] : List ℚ).length : ℤ) - 2) :=
  (claim1_eligible_count_and_guard dupSplit id idFit 0 [1, 2, 3, 4, 5] 2
    (by decide) (by decide)).1

/-! ### C2: shape and content of the forward forecast -/

/-- C2: whenever a prediction run passes the InsufficientData check
(`trainAndPredict … = some r`) with horizon `H ≥ 1`, the forecast table has
exactly `H` rows, its day offsets are `1..H` in increasing order, and its
prices are the fitted model applied to the last `H` raw Close values passed
through the same standardization as the features. -/
theorem claim2_forecast_shape
    (splitFn : List (ℚ × ℚ) → List (ℚ × ℚ) × List (ℚ × ℚ))
    (sq : ℚ → ℚ) (fit : ℕ → List (ℚ × ℚ) → ℚ → ℚ) (rng : ℕ)
    (closes : List ℚ) (H : ℕ) (r : RunResult) (h1 : 1 ≤ H)
    (hr : trainAndPredict splitFn sq fit rng closes H = some r) :
    r.forecast.length = H ∧
    r.forecast.map Prod.fst = (List.range H).map (· + 1) ∧
    r.forecast.map Prod.snd = (lastClose closes H).map
      (fun x => fit rng (splitFn (stdRows sq closes H)).1
        (stdFeature sq closes H x)) := by
  have hN : H < closes.length := by
    by_contra hle
    push_neg at hle
    simp [trainAndPredict, (allTargetsNull_iff closes H).mpr hle] at hr
  have hguard : allTargetsNull closes H = false := by
    rw [Bool.eq_false_iff]
    intro hg
    have := (allTargetsNull_iff closes H).mp hg
    omega
  simp only [trainAndPredict, hguard, Bool.false_eq_true, if_false,
    Option.some.injEq] at hr
  subst hr
  have hlc : (lastClose closes H).length = H := by
    simp [lastClose]
    omega
  refine ⟨?_, ?_, ?_⟩
  · simp [hlc]
  · apply List.map_fst_zip
    simp [hlc]
  · apply List.map_snd_zip
    simp [hlc]

/-- Witness `RunResult` produced by `trainAndPredict dupSplit id idFit 0
[1, 2, 3] 1`, computed explicitly. -/
def runW : RunResult :=
  { train := [(-2, 2), (2, 3)], test := [(-2, 2), (2, 3)]
    r2 := -33, mae := 5 / 2, forecast := [(1, 6)] }

theorem claim2_witness : runW.forecast.length = 1 :=
  (claim2_forecast_shape dupSplit id idFit 0 [1, 2, 3] 1 runW
    (by decide)
    (by norm_num [trainAndPredict, dupSplit, idFit, runW, stdRows, stdFeature,
      scalerMean, scalerVar, lastClose, r2Score, maeScore, popMean, popVar,
      eligible_eq, allTargetsNull, shiftNeg, List.range_succ])).1

/-! ### C5: reproducibility across runs -/

/-- C5 counterexample: the claim says two runs with the same series, model
choice and horizon produce identical metrics and forecast.  The split is
seeded (`random_state=42`) but the ensemble estimators are constructed
without a seed (src/app.py lines 116-118), so the fitted model may depend
on the ambient random state, and two runs can disagree. -/
theorem claim5_counterexample :
    trainAndPredict dupSplit id seedFit 0 [1, 2, 3] 1 ≠
    trainAndPredict dupSplit id seedFit 1 [1, 2, 3] 1 := by
  norm_num [trainAndPredict, dupSplit, seedFit, stdRows, stdFeature,
    scalerMean, scalerVar, lastClose, r2Score, maeScore, popMean, popVar,
    eligible_eq, allTargetsNull, shiftNeg, List.range_succ, RunResult.mk.injEq]

/-- C5 (amended): two runs always produce the identical train/test split
(the only seeded randomness); and when the chosen estimator's fit is
deterministic — it does not consume the ambient random state, as for
Linear Regression or KNN — the metrics and forecast coincide as well. -/
theorem claim5_split_deterministic
    (splitFn : List (ℚ × ℚ) → List (ℚ × ℚ) × List (ℚ × ℚ))
    (sq : ℚ → ℚ) (fit : ℕ → List (ℚ × ℚ) → ℚ → ℚ) (rng₁ rng₂ : ℕ)
    (closes : List ℚ) (H : ℕ) :
    (trainAndPredict splitFn sq fit rng₁ closes H).map
        (fun r => (r.train, r.test)) =
      (trainAndPredict splitFn sq fit rng₂ closes H).map
        (fun r => (r.train, r.test)) ∧
    ((∀ a b d, fit a d = fit b d) →
      trainAndPredict splitFn sq fit rng₁ closes H =
      trainAndPredict splitFn sq fit rng₂ closes H) := by
  constructor
  · simp only [trainAndPredict]
    split
    · rfl
    · simp
  · intro hdet
    have h12 : fit rng₁ = fit rng₂ := funext (fun d => hdet rng₁ rng₂ d)
    simp only [trainAndPredict, h12]

theorem claim5_witness :
    trainAndPredict dupSplit id idFit 0 [1, 2, 3] 1 =
    trainAndPredict dupSplit id idFit 5 [1, 2, 3] 1 :=
  (claim5_split_deterministic dupSplit id idFit 0 5 [1, 2, 3] 1).2
    (fun _ _ _ => rfl)

/-! ### C8: scaler statistics come from the eligible rows only -/

/-- C8: the standardization statistics are computed from the fit-eligible
rows only: the fitted mean and variance are exactly the mean and variance
of the first `N − H` Close values (the rows dropped for an undefined
shifted target are the last `H` rows), and any change confined to those
dropped rows leaves both statistics unchanged. -/
theorem claim8_scaler_from_eligible (closes : List ℚ) (H : ℕ) :
    scalerMean closes H = popMean (closes.take (closes.length - H)) ∧
    scalerVar closes H = popVar (closes.take (closes.length - H)) ∧
    (∀ closes' : List ℚ, closes'.length = closes.length →
      closes'.take (closes.length - H) = closes.take (closes.length - H) →
      scalerMean closes' H = scalerMean closes H ∧
      scalerVar closes' H = scalerVar closes H) := by
  have h1 : scalerMean closes H = popMean (closes.take (closes.length - H)) := by
    rw [scalerMean, map_fst_eligible]
  have h2 : scalerVar closes H = popVar (closes.take (closes.length - H)) := by
    rw [scalerVar, map_fst_eligible]
  refine ⟨h1, h2, ?_⟩
  intro closes' hlen htake
  have h1' : scalerMean closes' H
      = popMean (closes'.take (closes'.length - H)) := by
    rw [scalerMean, map_fst_eligible]
  have h2' : scalerVar closes' H
      = popVar (closes'.take (closes'.length - H)) := by
    rw [scalerVar, map_fst_eligible]
  constructor
  · rw [h1', hlen, htake, ← h1]
  · rw [h2', hlen, htake, ← h2]

theorem claim8_witness :
    scalerMean [1, 2, 9, 9] 2 = scalerMean [1, 2, 3, 4] 2 :=
  ((claim8_scaler_from_eligible [1, 2, 3, 4] 2).2.2 [1, 2, 9, 9]
    (by decide) (by decide)).1

/-! ### Column label normalization (`download_data`, src/app.py lines 34-41)

Column labels are embedded as lists of characters (Python strings). -/

/-- Python `str.strip()`: remove leading and trailing whitespace. -/
def stripEnds (s : List Char) : List Char :=
  ((s.dropWhile Char.isWhitespace).reverse.dropWhile Char.isWhitespace).reverse

/-- Flattening of one hierarchical column label:
`'_'.join(col).strip()` (line 38). -/
def flattenLabel (levels : List (List Char)) : List Char :=
  stripEnds (List.intercalate ['_'] levels)

/-- Per-column rename of line 41:
`col.split('_')[0] if '_' in col else col` — Python `split('_')[0]` is the
longest underscore-free first segment. -/
def normalizeColumn (col : List Char) : List Char :=
  if '_' ∈ col then col.takeWhile (fun c => c ≠ '_') else col

theorem dropWhile_of_head_not (p : Char → Bool) (l : List Char)
    (h : ∀ c ∈ l, p c = false) : l.dropWhile p = l := by
  cases l with
  | nil => rfl
  | cons x xs =>
    rw [List.dropWhile_cons]
    simp [h x (List.mem_cons_self x xs)]

theorem stripEnds_of_no_whitespace (s : List Char)
    (h : ∀ c ∈ s, c.isWhitespace = false) : stripEnds s = s := by
  unfold stripEnds
  rw [dropWhile_of_head_not _ _ h]
  rw [dropWhile_of_head_not _ _ (by intro c hc; exact h c (List.mem_reverse.mp hc))]
  exact List.reverse_reverse s

theorem takeWhile_until_underscore (a b : List Char) (h : '_' ∉ a) :
    (a ++ '_' :: b).takeWhile (fun c => c ≠ '_') = a := by
  induction a with
  | nil => simp
  | cons x xs ih =>
    simp only [List.mem_cons, not_or] at h
    have hx : x ≠ '_' := fun he => h.1 he.symm
    rw [List.cons_append, List.takeWhile_cons, if_pos (decide_eq_true hx),
      ih h.2]

/-- C10: after hierarchical labels are flattened by joining levels with
underscores, every label containing an underscore is cut down to its
longest prefix with no underscore (labels without an underscore are kept
whole); consequently a two-level label `(a, ticker)` with a clean first
level collapses to `a`, and any flat source field name containing an
underscore is truncated to its first underscore-separated segment. -/
theorem claim10_label_truncation :
    (∀ a b : List Char, '_' ∉ a → normalizeColumn (a ++ '_' :: b) = a) ∧
    (∀ a b : List Char, '_' ∉ a →
      (∀ c ∈ a, c.isWhitespace = false) → (∀ c ∈ b, c.isWhitespace = false) →
      normalizeColumn (flattenLabel [a, b]) = a) ∧
    (∀ col : List Char, '_' ∉ col → normalizeColumn col = col) := by
  have hcut : ∀ a b : List Char, '_' ∉ a → normalizeColumn (a ++ '_' :: b) = a := by
    intro a b h
    have hmem : '_' ∈ a ++ '_' :: b := by
      simp
    rw [normalizeColumn, if_pos hmem]
    exact takeWhile_until_underscore a b h
  refine ⟨hcut, ?_, ?_⟩
  · intro a b hu ha hb
    have hflat : flattenLabel [a, b] = a ++ '_' :: b := by
      unfold flattenLabel
      rw [List.intercalate]
      simp only [List.intersperse]
      have : ∀ c ∈ a ++ '_' :: b, c.isWhitespace = false := by
        intro c hc
        rcases List.mem_append.mp hc with h1 | h1
        · exact ha c h1
        · rcases List.mem_cons.mp h1 with h2 | h2
          · rw [h2]
            rfl
          · exact hb c h2
      calc stripEnds (List.foldr List.append [] (List.intersperse ['_'] [a, b]))
          = stripEnds (a ++ '_' :: b) := by
            simp [List.intersperse]
        _ = a ++ '_' :: b := stripEnds_of_no_whitespace _ this
    rw [hflat]
    exact hcut a b hu
  · intro col h
    rw [normalizeColumn, if_neg h]

theorem claim10_witness :
    normalizeColumn ("Close".toList ++ '_' :: "AAPL".toList) = "Close".toList :=
  claim10_label_truncation.1 "Close".toList "AAPL".toList (by decide)

/-! ### Data Loader and its session cache (`download_data`, lines 24-46) -/

/-- A flat column-oriented frame: labelled numeric columns. -/
abbrev ColFrame := List (List Char × List ℚ)

/-- One download request's identity: `(symbol, start date, end date)` —
the exact argument tuple `@st.cache_data` keys the memo entry by. -/
abbrev ReqKey := List Char × ℤ × ℤ

/-- What the external market-data source can do for one request: return
rows under hierarchical labels, return rows under flat labels, return an
empty result, or raise. -/
inductive Fetched where
  | multi (cols : List (List (List Char) × List ℚ))
  | flat (cols : ColFrame)
  | empty
  | raises
deriving DecidableEq

/-- The body of `download_data` (lines 27-46): `None` on an empty result
(line 29-31) and on any exception (lines 44-46); otherwise the frame with
hierarchical labels flattened (line 38) and every label renamed by
`normalizeColumn` (line 41). -/
def downloadBody (fetch : ReqKey → Fetched) (k : ReqKey) : Option ColFrame :=
  match fetch k with
  | .empty => none
  | .raises => none
  | .flat cols => some (cols.map (fun c => (normalizeColumn c.1, c.2)))
  | .multi cols =>
      some (cols.map (fun c => (normalizeColumn (flattenLabel c.1), c.2)))

/-- The session memo `@st.cache_data` maintains for `download_data`: one
entry per exact argument tuple, holding whatever the body returned —
including the `None` it returns on failure. -/
abbrev Cache := List (ReqKey × Option ColFrame)

def lookupCache (c : Cache) (k : ReqKey) : Option (Option ColFrame) :=
  (c.find? (fun e => decide (e.1 = k))).map (fun e => e.2)

/-- `download_data` as invoked through `@st.cache_data` (line 24): on a
memo hit the stored value is returned and the body does not run; on a miss
the body runs once and its return value — successful or not — is stored.
The `Bool` reports whether the body ran (i.e. a fetch was attempted). -/
def downloadData (fetch : ReqKey → Fetched) (c : Cache) (k : ReqKey) :
    Option ColFrame × Cache × Bool :=
  match lookupCache c k with
  | some r => (r, c, false)
  | none => (downloadBody fetch k, (k, downloadBody fetch k) :: c, true)

/-- C3 counterexample: the claim says only successful results are cached.
But for a symbol with no data the body returns `None` and `@st.cache_data`
memoizes that `None` like any other return value: after one failed call
the session cache holds an unsuccessful entry. -/
theorem claim3_counterexample :
    ¬ ∀ e ∈ (downloadData (fun _ => Fetched.empty) []
        ("XXXX".toList, 0, 1)).2.1, e.2.isSome = true := by
  decide

/-- C3 (amended): all `download_data` results — successes and the `None`
returned on an empty result or a fetch error alike — are cached keyed by
the exact `(symbol, start, end)` tuple; re-invoking with an identical key
returns the identical cached result and performs no second fetch. -/
theorem claim3_cache_idempotent (fetch : ReqKey → Fetched) (c : Cache)
    (k : ReqKey) :
    downloadData fetch (downloadData fetch c k).2.1 k
      = ((downloadData fetch c k).1, (downloadData fetch c k).2.1, false) ∧
    lookupCache (downloadData fetch c k).2.1 k
      = some (downloadData fetch c k).1 := by
  unfold downloadData
  cases hl : lookupCache c k with
  | some r =>
    simp [hl]
  | none =>
    have hl2 : lookupCache ((k, downloadBody fetch k) :: c) k
        = some (downloadBody fetch k) := by
      unfold lookupCache
      simp [List.find?]
    simp [hl, hl2]

/-! ### Technical indicators (`tech_indicators`, src/app.py lines 63-100)

Indicator columns are `Option ℚ` valued: `none` embeds the NaN cells pandas
produces during rolling/ewm warm-up. -/

/-- Whether a column holds a defined (non-NaN) value at row `i`. -/
def definedAt (l : List (Option ℚ)) (i : ℕ) : Bool :=
  ((l[i]?).getD none).isSome

/-- pandas `rolling(w, min_periods=w).mean()`: at row `i` the mean of the
window `xs[i+1-w .. i]`, NaN until `w` observations exist. -/
def rollingMean (w : ℕ) (xs : List ℚ) : List (Option ℚ) :=
  (List.range xs.length).map (fun i =>
    if w ≤ i + 1 then some (popMean ((xs.take (i + 1)).drop (i + 1 - w))) else none)

/-- pandas `rolling(w, min_periods=w).std(ddof=0)`, squared: the rolling
population variance.  The `ta` Bollinger std is the abstract square root
`sq` of this. -/
def rollingVar (w : ℕ) (xs : List ℚ) : List (Option ℚ) :=
  (List.range xs.length).map (fun i =>
    if w ≤ i + 1 then some (popVar ((xs.take (i + 1)).drop (i + 1 - w))) else none)

/-- pandas `ewm(alpha=α, min_periods=m, adjust=False).mean()` for an input
whose NaNs, if any, form a prefix — the only shape this app produces.
State: the current smoothed value (`none` before any observation) and the
number `cnt` of observations so far; a row's output is defined once at
least `m` observations have been seen; on an observation the value updates
by `y = (1-α)·y + α·x`. -/
def ewmGo (α : ℚ) (m : ℕ) : Option ℚ → ℕ → List (Option ℚ) → List (Option ℚ)
  | _, _, [] => []
  | s, cnt, none :: xs => (if m ≤ cnt then s else none) :: ewmGo α m s cnt xs
  | s, cnt, some x :: xs =>
      let s2 : ℚ := match s with
        | none => x
        | some p => (1 - α) * p + α * x
      (if m ≤ cnt + 1 then some s2 else none) :: ewmGo α m (some s2) (cnt + 1) xs

def ewmMean (α : ℚ) (m : ℕ) (xs : List (Option ℚ)) : List (Option ℚ) :=
  ewmGo α m none 0 xs

/-- NaN-propagating binary arithmetic on two columns (pandas aligns and
propagates NaN). -/
def optMap2 (f : ℚ → ℚ → ℚ) : Option ℚ → Option ℚ → Option ℚ
  | some a, some b => some (f a b)
  | _, _ => none

/-- `BollingerBands(close).bollinger_hband()` (line 75): 20-period rolling
mean plus two rolling standard deviations (`window=20`, `window_dev=2`). -/
def bbHighCol (sq : ℚ → ℚ) (xs : List ℚ) : List (Option ℚ) :=
  List.zipWith (optMap2 (fun m v => m + 2 * sq v))
    (rollingMean 20 xs) (rollingVar 20 xs)

/-- `BollingerBands(close).bollinger_lband()` (line 76). -/
def bbLowCol (sq : ℚ → ℚ) (xs : List ℚ) : List (Option ℚ) :=
  List.zipWith (optMap2 (fun m v => m - 2 * sq v))
    (rollingMean 20 xs) (rollingVar 20 xs)

/-- The `ta` library's `_ema(series, w)`:
`ewm(span=w, min_periods=w, adjust=False).mean()`; the smoothing factor
for span `w` is `2/(w+1)`. -/
def taEma (w : ℕ) (xs : List (Option ℚ)) : List (Option ℚ) :=
  ewmMean (2 / ((w : ℚ) + 1)) w xs

/-- `MACD(close).macd()` (line 77): fast EMA (span 12) minus slow EMA
(span 26), each with its span as min_periods. -/
def macdCol (xs : List ℚ) : List (Option ℚ) :=
  List.zipWith (optMap2 (fun a b => a - b))
    (taEma 12 (xs.map some)) (taEma 26 (xs.map some))

/-- `SMAIndicator(close, window=14).sma_indicator()` (line 79). -/
def smaCol (xs : List ℚ) : List (Option ℚ) := rollingMean 14 xs

/-- `EMAIndicator(close).ema_indicator()` (line 80), default window 14. -/
def emaCol (xs : List ℚ) : List (Option ℚ) := taEma 14 (xs.map some)

/-- `close.diff(1).where(diff > 0, 0.0)` inside `RSIIndicator`: the
positive move at each row; row 0's NaN difference compares false and is
replaced by `0.0`. -/
def upMoves : List ℚ → List ℚ
  | [] => []
  | c :: cs =>
      0 :: List.zipWith (fun cur prev => if prev < cur then cur - prev else 0)
        cs (c :: cs)

/-- `-close.diff(1).where(diff < 0, 0.0)`: the (positive) magnitude of the
negative move at each row. -/
def downMoves : List ℚ → List ℚ
  | [] => []
  | c :: cs =>
      0 :: List.zipWith (fun cur prev => if cur < prev then prev - cur else 0)
        cs (c :: cs)

/-- `RSIIndicator(close).rsi()` (line 78), window 14: EWMs
(`alpha = 1/14`, `min_periods = 14`) of the up and down moves;
RSI = 100 − 100/(1 + up/down), taken as 100 where the down EWM is zero. -/
def rsiCol (xs : List ℚ) : List (Option ℚ) :=
  List.zipWith
    (optMap2 (fun u d => if d = 0 then 100 else 100 - 100 / (1 + u / d)))
    (ewmMean (1 / 14) 14 ((upMoves xs).map some))
    (ewmMean (1 / 14) 14 ((downMoves xs).map some))

/-- The six derived columns computed on every Visualize render
(lines 75-80), in program order. -/
structure IndCols where
  bbHigh : List (Option ℚ)
  bbLow : List (Option ℚ)
  macd : List (Option ℚ)
  rsi : List (Option ℚ)
  sma : List (Option ℚ)
  ema : List (Option ℚ)
deriving DecidableEq

def computeIndCols (sq : ℚ → ℚ) (xs : List ℚ) : IndCols :=
  { bbHigh := bbHighCol sq xs, bbLow := bbLowCol sq xs, macd := macdCol xs
    rsi := rsiCol xs, sma := smaCol xs, ema := emaCol xs }

/-- pandas `Series.squeeze()` (line 73): a one-element series collapses to
a bare scalar; anything else stays a series. -/
inductive Squeezed where
  | scalar (x : ℚ)
  | series (xs : List ℚ)
deriving DecidableEq

def squeeze (xs : List ℚ) : Squeezed :=
  match xs with
  | [x] => .scalar x
  | _ => .series xs

/-- Lines 72-83: the indicator computation inside `try`.  The `ta`
constructors raise on a scalar input (a scalar has no rolling/ewm), which
the `except` reports as the ComputationError message; on a series —
however short — they only build rolling/ewm columns and never raise:
a too-short series just yields all-NaN columns. -/
def indicatorsOrError (sq : ℚ → ℚ) (xs : List ℚ) :
    Except (List Char) IndCols :=
  match squeeze xs with
  | .scalar _ => .error "Error calculating indicators".toList
  | .series s => .ok (computeIndCols sq s)

theorem indicatorsOrError_ok (sq : ℚ → ℚ) (xs : List ℚ)
    (h : xs.length ≠ 1) :
    indicatorsOrError sq xs = .ok (computeIndCols sq xs) := by
  cases xs with
  | nil => rfl
  | cons a t =>
    cases t with
    | nil => simp at h
    | cons b t2 => rfl

/-! #### Where each indicator column is defined -/

theorem length_rollingMean (w : ℕ) (xs : List ℚ) :
    (rollingMean w xs).length = xs.length := by
  simp [rollingMean]

theorem definedAt_rollingMean (w : ℕ) (xs : List ℚ) (i : ℕ) :
    definedAt (rollingMean w xs) i
      = (decide (w ≤ i + 1) && decide (i < xs.length)) := by
  by_cases hi : i < xs.length
  · simp only [definedAt, rollingMean, List.getElem?_map,
      List.getElem?_range hi, Option.map_some', Option.getD_some]
    split
    next h => simp [h, hi]
    next h => simp [h, hi]
  · have hlen : (rollingMean w xs).length ≤ i := by
      rw [length_rollingMean]
      omega
    simp [definedAt, List.getElem?_eq_none hlen, hi]

theorem length_rollingVar (w : ℕ) (xs : List ℚ) :
    (rollingVar w xs).length = xs.length := by
  simp [rollingVar]

theorem definedAt_rollingVar (w : ℕ) (xs : List ℚ) (i : ℕ) :
    definedAt (rollingVar w xs) i
      = (decide (w ≤ i + 1) && decide (i < xs.length)) := by
  by_cases hi : i < xs.length
  · simp only [definedAt, rollingVar, List.getElem?_map,
      List.getElem?_range hi, Option.map_some', Option.getD_some]
    split
    next h => simp [h, hi]
    next h => simp [h, hi]
  · have hlen : (rollingVar w xs).length ≤ i := by
      rw [length_rollingVar]
      omega
    simp [definedAt, List.getElem?_eq_none hlen, hi]

theorem definedAt_ewmGo (α : ℚ) (m : ℕ) (xs : List ℚ) :
    ∀ (s : Option ℚ) (cnt i : ℕ),
      definedAt (ewmGo α m s cnt (xs.map some)) i
        = (decide (m ≤ cnt + i + 1) && decide (i < xs.length)) := by
  induction xs with
  | nil =>
    intro s cnt i
    simp [ewmGo, definedAt]
  | cons x t ih =>
    intro s cnt i
    cases i with
    | zero =>
      simp only [List.map_cons, ewmGo, definedAt, List.getElem?_cons_zero,
        Option.getD_some, List.length_cons, Nat.add_zero]
      split
      next h => simp [h]
      next h => simp [h]
    | succ j =>
      simp only [List.map_cons, ewmGo, definedAt, List.getElem?_cons_succ,
        List.length_cons]
      have := ih (some (match s with
        | none => x
        | some p => (1 - α) * p + α * x)) (cnt + 1) j
      rw [definedAt] at this
      rw [this]
      congr 1
      · rw [decide_eq_decide]
        omega
      · rw [decide_eq_decide]
        omega

theorem definedAt_ewmMean (α : ℚ) (m : ℕ) (xs : List ℚ) (i : ℕ) :
    definedAt (ewmMean α m (xs.map some)) i
      = (decide (m ≤ i + 1) && decide (i < xs.length)) := by
  rw [ewmMean, definedAt_ewmGo, Nat.zero_add]

theorem definedAt_zipWith (f : ℚ → ℚ → ℚ) (l1 l2 : List (Option ℚ)) (i : ℕ) :
    definedAt (List.zipWith (optMap2 f) l1 l2) i
      = (definedAt l1 i && definedAt l2 i) := by
  induction l1 generalizing l2 i with
  | nil => simp [definedAt]
  | cons a t ih =>
    cases l2 with
    | nil => simp [definedAt]
    | cons b t2 =>
      cases i with
      | zero =>
        cases a <;> cases b <;> simp [definedAt, optMap2]
      | succ j =>
        simp only [List.zipWith_cons_cons, definedAt, List.getElem?_cons_succ]
        exact ih t2 j

theorem length_upMoves (xs : List ℚ) : (upMoves xs).length = xs.length := by
  cases xs with
  | nil => rfl
  | cons c cs => simp [upMoves]

theorem length_downMoves (xs : List ℚ) :
    (downMoves xs).length = xs.length := by
  cases xs with
  | nil => rfl
  | cons c cs => simp [downMoves]

/-! ### The dataframe object and the three renderers -/

/-- The dataframe `main` holds: the loaded base columns (no NaN) plus any
derived indicator columns written into it. -/
structure Frame where
  base : ColFrame
  derived : List (List Char × List (Option ℚ))
deriving DecidableEq

def lookupBase (f : Frame) (n : List Char) : Option (List ℚ) :=
  (f.base.find? (fun e => decide (e.1 = n))).map (fun e => e.2)

/-- pandas column assignment `df[name] = vals`: overwrite the column in
place if present, else append it as the last column. -/
def setCol (d : List (List Char × List (Option ℚ))) (n : List Char)
    (v : List (Option ℚ)) : List (List Char × List (Option ℚ)) :=
  if d.any (fun e => decide (e.1 = n)) then
    d.map (fun e => if e.1 = n then (n, v) else e)
  else d ++ [(n, v)]

def hasCol (d : List (List Char × List (Option ℚ))) (n : List Char) : Bool :=
  d.any (fun e => decide (e.1 = n))

/-- The six assignments of lines 75-80, in program order. -/
def withIndicators (f : Frame) (cols : IndCols) : Frame :=
  Frame.mk f.base
    (setCol (setCol (setCol (setCol (setCol (setCol f.derived
      "bb_high".toList cols.bbHigh)
      "bb_low".toList cols.bbLow)
      "macd".toList cols.macd)
      "rsi".toList cols.rsi)
      "sma".toList cols.sma)
      "ema".toList cols.ema)

/-- The radio selection of line 66. -/
inductive IndChoice where
  | close | bb | macd | rsi | sma | ema
deriving DecidableEq

/-- What one render draws: a single line (name, values, color) or the
three-series Bollinger figure. -/
inductive Chart where
  | line (name : List Char) (vals : List (Option ℚ)) (color : List Char)
  | multi (series : List (List Char × List (Option ℚ)))
deriving DecidableEq

inductive RenderResult where
  | chart (c : Chart)
  | errorShown (msg : List Char)
deriving DecidableEq

/-- The per-option plotting branch of lines 85-100. -/
def chartFor (opt : IndChoice) (closeVals : List ℚ) (cols : IndCols) :
    Chart :=
  match opt with
  | .close => .line "Close".toList (closeVals.map some) "blue".toList
  | .bb => .multi [("Close".toList, closeVals.map some),
      ("bb_high".toList, cols.bbHigh), ("bb_low".toList, cols.bbLow)]
  | .macd => .line "macd".toList cols.macd "red".toList
  | .rsi => .line "rsi".toList cols.rsi "purple".toList
  | .sma => .line "sma".toList cols.sma "orange".toList
  | .ema => .line "ema".toList cols.ema "green".toList

/-- `tech_indicators(df)` (lines 63-100): missing-Close check, then the
indicator computation — whose six column assignments write into the frame
the caller passed, with no working copy — then one chart for the selected
option.  Returns the frame as the caller now sees it, plus what was
rendered. -/
def techIndicators (sq : ℚ → ℚ) (opt : IndChoice) (f : Frame) :
    Frame × RenderResult :=
  match lookupBase f "Close".toList with
  | none => (f, .errorShown "Data does not contain Close prices".toList)
  | some closeVals =>
    match indicatorsOrError sq closeVals with
    | .error msg => (f, .errorShown msg)
    | .ok cols =>
        (withIndicators f cols, .chart (chartFor opt closeVals cols))

/-- The per-session state `main` works with: the `@st.cache_data` store
and the frame the local variable `df` refers to.  Because the data cache
returns a fresh deserialized copy on every call, `loaded` is storage
disjoint from every cache entry. -/
structure Session where
  cache : Cache
  loaded : Frame
deriving DecidableEq

/-- A Visualize action (line 169): `tech_indicators` mutates the frame
`main` passed it, so the session's loaded frame becomes the returned one;
the cache is untouched. -/
def visualizeStep (sq : ℚ → ℚ) (opt : IndChoice) (s : Session) :
    Session × RenderResult :=
  ({ s with loaded := (techIndicators sq opt s.loaded).1 },
    (techIndicators sq opt s.loaded).2)

/-- `df.tail(10)` (line 105): the last ten rows of every column. -/
def recentView (f : Frame) : Frame :=
  { base := f.base.map (fun c => (c.1, c.2.drop (c.2.length - 10)))
    derived := f.derived.map (fun c => (c.1, c.2.drop (c.2.length - 10))) }

/-- A Recent Data action (line 171): display only. -/
def recentStep (s : Session) : Session × Frame :=
  (s, recentView s.loaded)

def closesOf (f : Frame) : List ℚ :=
  (lookupBase f "Close".toList).getD []

/-- A Predict action (line 173): `train_and_predict` works on the copy
`df[['Close']].copy()` (line 125), so neither the loaded frame nor the
cache changes; only the run result is displayed. -/
def predictStep (splitFn : List (ℚ × ℚ) → List (ℚ × ℚ) × List (ℚ × ℚ))
    (sq : ℚ → ℚ) (fit : ℕ → List (ℚ × ℚ) → ℚ → ℚ) (rng : ℕ) (H : ℕ)
    (s : Session) : Session × Option RunResult :=
  (s, trainAndPredict splitFn sq fit rng (closesOf s.loaded) H)

/-! #### Column-presence lemmas for `setCol` -/

theorem hasCol_setCol_self (d : List (List Char × List (Option ℚ)))
    (n : List Char) (v : List (Option ℚ)) :
    hasCol (setCol d n v) n = true := by
  unfold hasCol setCol
  split
  next h =>
    rw [List.any_eq_true] at h ⊢
    obtain ⟨e, he, hd⟩ := h
    refine ⟨(n, v), List.mem_map.mpr ⟨e, he, ?_⟩, by simp⟩
    simp [of_decide_eq_true hd]
  next h =>
    rw [List.any_eq_true]
    exact ⟨(n, v), by simp, by simp⟩

theorem hasCol_setCol_of (d : List (List Char × List (Option ℚ)))
    (n m : List Char) (v : List (Option ℚ)) (h : hasCol d n = true) :
    hasCol (setCol d m v) n = true := by
  unfold hasCol at h
  rw [List.any_eq_true] at h
  obtain ⟨e, he, hd⟩ := h
  have hen : e.1 = n := of_decide_eq_true hd
  unfold hasCol setCol
  split
  next hany =>
    rw [List.any_eq_true]
    by_cases hem : e.1 = m
    · refine ⟨(m, v), List.mem_map.mpr ⟨e, he, by simp [hem]⟩, ?_⟩
      simp [← hem, hen]
    · exact ⟨e, List.mem_map.mpr ⟨e, he, by simp [hem]⟩, hd⟩
  next hany =>
    rw [List.any_eq_true]
    exact ⟨e, List.mem_append_left _ he, hd⟩

/-! ### C6: short series and ComputationError -/

/-- C6 counterexample: the claim says a Close-only series shorter than an
indicator's required window makes the renderer raise ComputationError.
On the five-point series the computation succeeds (no error is reported, a
chart is drawn) and the SMA column — window 14 — is silently all-NaN. -/
theorem claim6_counterexample :
    indicatorsOrError id [1, 2, 3, 4, 5]
      = .ok (computeIndCols id [1, 2, 3, 4, 5]) ∧
    (computeIndCols id [1, 2, 3, 4, 5]).sma.all Option.isNone = true ∧
    (techIndicators id IndChoice.sma
        { base := [("Close".toList, [1, 2, 3, 4, 5])], derived := [] }).2
      = RenderResult.chart (chartFor IndChoice.sma [1, 2, 3, 4, 5]
          (computeIndCols id [1, 2, 3, 4, 5])) := by
  refine ⟨rfl, by decide, rfl⟩

/-- C6 (amended): the indicator computation raises — and is reported as
ComputationError — only for a one-row series, whose Close squeezes to a
scalar the `ta` constructors cannot take.  A series merely shorter than an
indicator's window produces no error: the computation succeeds and the
affected columns are silently NaN.  On any other series each indicator has
exactly one finite value per row from its first valid row onward: SMA and
EMA (window 14) and RSI (window 14) at rows `i ≥ 13`, Bollinger bands
(window 20) at rows `i ≥ 19`, MACD (slow span 26) at rows `i ≥ 25`. -/
theorem claim6_short_series_is_silent (sq : ℚ → ℚ) (xs : List ℚ)
    (hxs : xs.length ≠ 1) :
    indicatorsOrError sq xs = .ok (computeIndCols sq xs) ∧
    (∀ c : ℚ, indicatorsOrError sq [c]
      = .error "Error calculating indicators".toList) ∧
    (∀ i, i < xs.length →
      definedAt (smaCol xs) i = decide (14 ≤ i + 1) ∧
      definedAt (emaCol xs) i = decide (14 ≤ i + 1) ∧
      definedAt (bbHighCol sq xs) i = decide (20 ≤ i + 1) ∧
      definedAt (bbLowCol sq xs) i = decide (20 ≤ i + 1) ∧
      definedAt (macdCol xs) i = decide (26 ≤ i + 1) ∧
      definedAt (rsiCol xs) i = decide (14 ≤ i + 1)) := by
  refine ⟨indicatorsOrError_ok sq xs hxs, fun c => rfl, ?_⟩
  intro i hi
  have hup : i < (upMoves xs).length := by
    rw [length_upMoves]
    exact hi
  have hdn : i < (downMoves xs).length := by
    rw [length_downMoves]
    exact hi
  refine ⟨?_, ?_, ?_, ?_, ?_, ?_⟩
  · rw [smaCol, definedAt_rollingMean]
    simp [hi]
  · rw [emaCol, taEma, definedAt_ewmMean]
    simp [hi]
  · rw [bbHighCol, definedAt_zipWith, definedAt_rollingMean,
      definedAt_rollingVar]
    simp [hi]
  · rw [bbLowCol, definedAt_zipWith, definedAt_rollingMean,
      definedAt_rollingVar]
    simp [hi]
  · rw [macdCol, definedAt_zipWith, taEma, taEma, definedAt_ewmMean,
      definedAt_ewmMean]
    simp only [decide_eq_true hi, Bool.and_true]
    by_cases h26 : 26 ≤ i + 1
    · have h12 : 12 ≤ i + 1 := by omega
      simp [h26, h12]
    · simp [h26]
  · rw [rsiCol, definedAt_zipWith, definedAt_ewmMean, definedAt_ewmMean]
    rw [length_upMoves, length_downMoves]
    simp [hi]

theorem claim6_witness :
    definedAt (smaCol [1, 2, 3, 4, 5, 6, 7, 8, 9, 10, 11, 12, 13, 14]) 13
      = true :=
  (((claim6_short_series_is_silent id
      [1, 2, 3, 4, 5, 6, 7, 8, 9, 10, 11, 12, 13, 14]
      (by decide)).2.2 13 (by decide)).1).trans (by decide)

/-! ### C9: all six columns are appended whatever the selection -/

/-- C9 counterexample: the claim says every Visualize render of a series
with a Close column appends all six derived columns.  On a one-row series
`df['Close'].squeeze()` yields a scalar, the `ta` constructor raises
inside the `try`, the error is reported and `tech_indicators` returns
before any assignment: the frame is unchanged and no column — here `sma` —
was appended. -/
theorem claim9_counterexample :
    techIndicators id IndChoice.sma
        { base := [("Close".toList, [7])], derived := [] }
      = ({ base := [("Close".toList, [7])], derived := [] },
         RenderResult.errorShown "Error calculating indicators".toList) ∧
    hasCol (techIndicators id IndChoice.sma
        { base := [("Close".toList, [7])], derived := [] }).1.derived
      "sma".toList = false := by
  exact ⟨rfl, rfl⟩

/-- C9 (amended): on every Visualize render of a frame with a Close column
of length other than one, all six derived columns — bb_high, bb_low, macd,
rsi, sma, ema — are computed and written into the frame, and the resulting
frame is the same whichever indicator the user selected: the selection
only picks the chart.  The one exception is a one-row Close column, whose
squeeze to a scalar makes the computation raise: the error is reported and
no column is appended. -/
theorem claim9_six_columns_unless_one_row (sq : ℚ → ℚ)
    (opt opt2 : IndChoice) (f : Frame) (closeVals : List ℚ)
    (hclose : lookupBase f "Close".toList = some closeVals)
    (hlen : closeVals.length ≠ 1) :
    (techIndicators sq opt f).1 = (techIndicators sq opt2 f).1 ∧
    (techIndicators sq opt f).1
      = withIndicators f (computeIndCols sq closeVals) ∧
    (["bb_high".toList, "bb_low".toList, "macd".toList, "rsi".toList,
        "sma".toList, "ema".toList].all
      (fun n => hasCol (techIndicators sq opt f).1.derived n)) = true ∧
    (∀ (g : Frame) (c : ℚ), lookupBase g "Close".toList = some [c] →
      techIndicators sq opt g
        = (g, .errorShown "Error calculating indicators".toList)) := by
  have hstep : ∀ o : IndChoice, (techIndicators sq o f).1
      = withIndicators f (computeIndCols sq closeVals) := by
    intro o
    rw [techIndicators, hclose]
    simp only [indicatorsOrError_ok sq closeVals hlen]
  have hder : (techIndicators sq opt f).1.derived
      = setCol (setCol (setCol (setCol (setCol (setCol f.derived
          "bb_high".toList (computeIndCols sq closeVals).bbHigh)
          "bb_low".toList (computeIndCols sq closeVals).bbLow)
          "macd".toList (computeIndCols sq closeVals).macd)
          "rsi".toList (computeIndCols sq closeVals).rsi)
          "sma".toList (computeIndCols sq closeVals).sma)
          "ema".toList (computeIndCols sq closeVals).ema := by
    rw [hstep opt]
    rfl
  refine ⟨(hstep opt).trans (hstep opt2).symm, hstep opt, ?_, ?_⟩
  · simp only [List.all_cons, List.all_nil, Bool.and_eq_true, hder]
    refine ⟨?_, ?_, ?_, ?_, ?_, ?_, trivial⟩
    · exact hasCol_setCol_of _ _ _ _ (hasCol_setCol_of _ _ _ _
        (hasCol_setCol_of _ _ _ _ (hasCol_setCol_of _ _ _ _
          (hasCol_setCol_of _ _ _ _ (hasCol_setCol_self _ _ _)))))
    · exact hasCol_setCol_of _ _ _ _ (hasCol_setCol_of _ _ _ _
        (hasCol_setCol_of _ _ _ _ (hasCol_setCol_of _ _ _ _
          (hasCol_setCol_self _ _ _))))
    · exact hasCol_setCol_of _ _ _ _ (hasCol_setCol_of _ _ _ _
        (hasCol_setCol_of _ _ _ _ (hasCol_setCol_self _ _ _)))
    · exact hasCol_setCol_of _ _ _ _ (hasCol_setCol_of _ _ _ _
        (hasCol_setCol_self _ _ _))
    · exact hasCol_setCol_of _ _ _ _ (hasCol_setCol_self _ _ _)
    · exact hasCol_setCol_self _ _ _
  · intro g c hg
    rw [techIndicators, hg]
    rfl

theorem claim9_witness :
    (techIndicators id IndChoice.sma
        { base := [("Close".toList, [1, 2])], derived := [] }).1
      = (techIndicators id IndChoice.close
        { base := [("Close".toList, [1, 2])], derived := [] }).1 :=
  (claim9_six_columns_unless_one_row id IndChoice.sma IndChoice.close
    { base := [("Close".toList, [1, 2])], derived := [] } [1, 2]
    (by decide) (by decide)).1

/-! ### C4: in-place mutation of the loaded frame -/

/-- C4 counterexample: the claim says no renderer ever mutates the loaded
Time Series in place, indicator columns going only to a working copy.
But `tech_indicators` assigns the six columns directly to the frame it was
given (lines 75-80, no copy), so after one Visualize action the session's
loaded frame differs from what was loaded. -/
theorem claim4_counterexample :
    (visualizeStep id IndChoice.sma
        { cache := [], loaded :=
          { base := [("Close".toList, [1, 2])], derived := [] } }).1.loaded
      ≠ ({ base := [("Close".toList, [1, 2])], derived := [] } : Frame) := by
  decide

/-- C4 (amended): the cached Data Loader result is left unchanged by every
Visualize, Recent Data, and Predict action — the `@st.cache_data` store
hands out fresh copies, so writes to the loaded frame never reach it — and
Recent Data and Predict do not mutate the loaded frame either; but the
Visualize renderer appends the indicator columns to the loaded frame
itself, in place, not to a working copy. -/
theorem claim4_only_visualize_mutates
    (sq : ℚ → ℚ) (opt : IndChoice) (s : Session)
    (splitFn : List (ℚ × ℚ) → List (ℚ × ℚ) × List (ℚ × ℚ))
    (fit : ℕ → List (ℚ × ℚ) → ℚ → ℚ) (rng H : ℕ) :
    (visualizeStep sq opt s).1.cache = s.cache ∧
    (recentStep s).1 = s ∧
    (predictStep splitFn sq fit rng H s).1 = s ∧
    (visualizeStep sq opt s).1.loaded = (techIndicators sq opt s.loaded).1 :=
  ⟨rfl, rfl, rfl, rfl⟩

/-! ### C7: date validation gates the loader -/

inductive LoadOutcome where
  | validationError
  | emptyOrError
  | ok (f : ColFrame)
deriving DecidableEq

/-- `main`'s Load Data click (lines 162-175): the loader runs only behind
the `start_date < end_date` check; otherwise the sidebar error is shown
and nothing is fetched.  Components: outcome, updated cache, whether
`download_data` was invoked, whether the fetch body actually ran. -/
def mainLoad (fetch : ReqKey → Fetched) (c : Cache) (sym : List Char)
    (startD endD : ℤ) : LoadOutcome × Cache × Bool × Bool :=
  if startD < endD then
    ((match (downloadData fetch c (sym, startD, endD)).1 with
      | some f => .ok f
      | none => .emptyOrError),
      (downloadData fetch c (sym, startD, endD)).2.1, true,
      (downloadData fetch c (sym, startD, endD)).2.2)
  else
    (.validationError, c, false, false)

/-- C7: whenever the start date is not strictly before the end date
(equality included) the action reports the validation error, leaves the
cache alone, and neither invokes the loader nor fetches; the loader is
invoked exactly when start < end, and then no validation error shows. -/
theorem claim7_validation_gates_fetch (fetch : ReqKey → Fetched)
    (c : Cache) (sym : List Char) (startD endD : ℤ) :
    (endD ≤ startD → mainLoad fetch c sym startD endD
      = (.validationError, c, false, false)) ∧
    (startD < endD → (mainLoad fetch c sym startD endD).2.2.1 = true ∧
      (mainLoad fetch c sym startD endD).1 ≠ .validationError) := by
  constructor
  · intro h
    rw [mainLoad, if_neg (not_lt.mpr h)]
  · intro h
    rw [mainLoad, if_pos h]
    refine ⟨rfl, ?_⟩
    cases (downloadData fetch c (sym, startD, endD)).1 <;> simp

theorem claim7_witness :
    mainLoad (fun _ => Fetched.empty) [] "AAPL".toList 3 3
      = (.validationError, [], false, false) :=
  (claim7_validation_gates_fetch (fun _ => Fetched.empty) [] "AAPL".toList
    3 3).1 (le_refl 3)

end StockApp
